import Mathlib

/-!
Shallow embedding of the BlockMemoryAllocator repository
(src/MemoryAllocator/MemoryAllocator.h): a fixed-tier pooled memory
allocator.  Machine integers (size_t) are modelled as Nat with explicit
reduction modulo 2 ^ 64 wherever the source arithmetic can wrap
(increment, decrement, multiplication, pointer offset).  The platform
allocator (CPPAllocator::Allocate, a malloc wrapper) is modelled as a
function parameter returning the reserved address, with 0 playing the
role of nullptr (CPPAllocator::kMemoryDefault).  The shared_ptr pool
reference held by an allocation handle is modelled as a
(tier index, pool index) pair into the allocator state, the
state-passing counterpart of the shared pointer.
-/

/-- Width of size_t: the source targets a 64-bit platform. -/
def wsize : Nat := 2 ^ 64

/-- size_t increment (operator++ on m_activeAllocationCount). -/
def incW (n : Nat) : Nat := (n + 1) % wsize

/-- size_t decrement (operator-- on m_activeAllocationCount); wraps at 0. -/
def decW (n : Nat) : Nat := (n + (wsize - 1)) % wsize

/-- size_t multiplication. -/
def mulW (a b : Nat) : Nat := (a * b) % wsize

/-- CPPAllocator::Type, the per-block diagnostic tag. -/
inductive MemType where
  | Array
  | Class
  | Other
  deriving DecidableEq

/-- Templated::PoolSizeConstructor: one row of the static class table. -/
structure PoolSizeConstructor where
  kPoolSize : Nat
  kPoolCount : Nat
  deriving DecidableEq

/-- PoolSizeConstructor::kBlockTotalSize. -/
def PoolSizeConstructor.kBlockTotalSize (c : PoolSizeConstructor) : Nat :=
  mulW c.kPoolSize c.kPoolCount

/-- CPPAllocator::kPoolSizes, the static class table, transcribed verbatim. -/
def kPoolSizes : List PoolSizeConstructor :=
  [{ kPoolSize := 256, kPoolCount := 1024 },
   { kPoolSize := 512, kPoolCount := 1024 },
   { kPoolSize := 768, kPoolCount := 1024 },
   { kPoolSize := 1024, kPoolCount := 1024 },
   { kPoolSize := 1536, kPoolCount := 1024 },
   { kPoolSize := 1024 * 1024, kPoolCount := 32 },
   { kPoolSize := 1024 * 1024 * 2, kPoolCount := 32 },
   { kPoolSize := 1024 * 1024 * 3, kPoolCount := 32 },
   { kPoolSize := 1024 * 1024 * 4, kPoolCount := 32 },
   { kPoolSize := 1024 * 1024 * 5, kPoolCount := 32 },
   { kPoolSize := 1024 * 1024 * 6, kPoolCount := 32 },
   { kPoolSize := 1024 * 1024 * 7, kPoolCount := 32 },
   { kPoolSize := 1024 * 1024 * 8, kPoolCount := 32 },
   { kPoolSize := 1024 * 1024 * 9, kPoolCount := 32 },
   { kPoolSize := 1024 * 1024 * 10, kPoolCount := 32 },
   { kPoolSize := 1024 * 1024 * 12, kPoolCount := 16 },
   { kPoolSize := 1024 * 1024 * 24, kPoolCount := 8 },
   { kPoolSize := 1024 * 1024 * 32, kPoolCount := 8 },
   { kPoolSize := 1024 * 1024 * 36, kPoolCount := 8 },
   { kPoolSize := 1024 * 1024 * 42, kPoolCount := 8 },
   { kPoolSize := 1024 * 1024 * 48, kPoolCount := 8 },
   { kPoolSize := 1024 * 1024 * 52, kPoolCount := 8 },
   { kPoolSize := 1024 * 1024 * 56, kPoolCount := 4 },
   { kPoolSize := 1024 * 1024 * 60, kPoolCount := 2 },
   { kPoolSize := 1024 * 1024 * 64, kPoolCount := 2 },
   { kPoolSize := 1024 * 1024 * 68, kPoolCount := 2 },
   { kPoolSize := 1024 * 1024 * 72, kPoolCount := 2 }]

/-- CPPAllocator::kArrayTotalSize. -/
def kArrayTotalSize : Nat := kPoolSizes.length

/-- CPPAllocator::kAlignment. -/
def kAlignment : Nat := 256

/-- CPPAllocator::kMemoryDefault (nullptr). -/
def kMemoryDefault : Nat := 0

/-- CPPAllocator::Offset: pointer arithmetic ((char*)memoryIn) + blockSize. -/
def CPPAllocator.Offset (memoryIn blockSize : Nat) : Nat :=
  (memoryIn + blockSize) % wsize

/-- Out-of-table placeholder used as the List.getD default for the class table. -/
def noClass : PoolSizeConstructor := { kPoolSize := 0, kPoolCount := 0 }

/-- Block size of tier i of the static class table. -/
def blockSizeOf (i : Nat) : Nat := (kPoolSizes.getD i noClass).kPoolSize

/-- Block count (pool capacity) of tier i of the static class table. -/
def capOf (i : Nat) : Nat := (kPoolSizes.getD i noClass).kPoolCount

/-- PoolList::Pool: one fixed-capacity arena.  m_activeAllocationCount is the
private counter; the capacity kBlockCount is a template constant of the
enclosing PoolList and is passed explicitly to the member functions. -/
structure Pool where
  m_typeList : List MemType
  m_allocationList : List Nat
  m_platformMemory : Nat
  m_activeAllocationCount : Nat
  deriving DecidableEq

/-- Placeholder pool used as the List.getD default when indexing pool lists. -/
def noPool : Pool :=
  { m_typeList := [], m_allocationList := [], m_platformMemory := kMemoryDefault,
    m_activeAllocationCount := 0 }

/-- Pool::Pool(): the constructor pushes 0, 1, ..., kBlockCount-1 onto
m_allocationList; m_typeList is value-initialized (first enumerator) and
m_platformMemory starts as kMemoryDefault. -/
def Pool.new (kBlockCount : Nat) : Pool :=
  { m_typeList := List.replicate kBlockCount MemType.Array,
    m_allocationList := List.range kBlockCount,
    m_platformMemory := kMemoryDefault,
    m_activeAllocationCount := 0 }

/-- Pool::Allocate(memoryType): returns {} if the pool is fully claimed or the
free list is empty; otherwise records the tag at the front index, increments
the active count, pops the front and returns it.  The mutated pool is returned
alongside the optional index. -/
def Pool.Allocate (kBlockCount : Nat) (p : Pool) (memoryType : MemType) :
    Option Nat × Pool :=
  if p.m_activeAllocationCount = kBlockCount then (none, p)
  else
    match p.m_allocationList with
    | [] => (none, p)
    | front :: rest =>
        (some front,
         { p with
             m_typeList := p.m_typeList.set front memoryType,
             m_allocationList := rest,
             m_activeAllocationCount := incW p.m_activeAllocationCount })

/-- Pool::Deallocate(blockIdx): decrements the active count and appends the
index to the back of the free list. -/
def Pool.Deallocate (p : Pool) (blockIdx : Nat) : Pool :=
  { p with
      m_activeAllocationCount := decW p.m_activeAllocationCount,
      m_allocationList := p.m_allocationList ++ [blockIdx] }

/-- LocalAllocation: the allocation handle.  m_poolAllocatedFrom (a shared_ptr
in the source, null by default) is modelled as an optional
(tier index, pool index) pair. -/
structure LocalAllocation where
  m_platformMemory : Nat
  blockIdx : Nat
  m_poolAllocatedFrom : Option (Nat × Nat)
  deriving DecidableEq

/-- Default-constructed LocalAllocation: memory = kMemoryDefault, blockIdx = ~0
(as size_t), no origin pool. -/
def LocalAllocation.mkDefault : LocalAllocation :=
  { m_platformMemory := kMemoryDefault, blockIdx := wsize - 1,
    m_poolAllocatedFrom := none }

/-- Pool of the allocator state at (tier index, pool index). -/
def poolAt (tiers : List (List Pool)) (i j : Nat) : Pool :=
  (tiers.getD i []).getD j noPool

/-- Allocator state with the pool at (tier index, pool index) replaced. -/
def setPool (tiers : List (List Pool)) (i j : Nat) (p : Pool) :
    List (List Pool) :=
  tiers.set i ((tiers.getD i []).set j p)

/-- LocalAllocation::~LocalAllocation(): if m_poolAllocatedFrom is set, call
Deallocate(blockIdx) on exactly that pool.  Besides the updated state, the
list of (tier, pool, blockIdx) Deallocate calls performed is returned; the
destructor never calls the platform allocator's Free. -/
def LocalAllocation.destroy (h : LocalAllocation) (tiers : List (List Pool)) :
    List (List Pool) × List (Nat × Nat × Nat) :=
  match h.m_poolAllocatedFrom with
  | none => (tiers, [])
  | some (ti, pi) =>
      (setPool tiers ti pi (Pool.Deallocate (poolAt tiers ti pi) h.blockIdx),
       [(ti, pi, h.blockIdx)])

/-- The range-for loop of PoolList::Allocate: try each pool in creation order;
on the first successful claim return (pool position, claimed index, updated
pool list).  A failed Pool::Allocate leaves that pool as the call returned
it (unchanged). -/
def tryPools (kBlockCount : Nat) (memoryType : MemType) :
    List Pool → Option (Nat × Nat × List Pool)
  | [] => none
  | p :: ps =>
      match Pool.Allocate kBlockCount p memoryType with
      | (some idx, p') => some (0, idx, p' :: ps)
      | (none, p') =>
          match tryPools kBlockCount memoryType ps with
          | some (j, idx, ps') => some (j + 1, idx, p' :: ps')
          | none => none

/-- PoolList::AddNewPool: push_back a fresh Pool and set its m_platformMemory
from the platform allocator (kBlockSize * kBlockCount bytes, kAlignment). -/
def AddNewPool (provider : Nat → Nat → Nat) (c : PoolSizeConstructor)
    (pools : List Pool) : List Pool :=
  pools ++
    [{ Pool.new c.kPoolCount with
         m_platformMemory := provider (mulW c.kPoolSize c.kPoolCount) kAlignment }]

/-- Body of PoolList::Allocate for a fitting request (memorySize <= kBlockSize):
if there are no pools, AddNewPool; try the pools in creation order; on success
wire the handle (blockIdx, origin pool, offset platform address); otherwise
AddNewPool again, claim from the back pool, and return a handle carrying only
the claimed block index (value_or(~0)) - its origin pool and platform memory
are left at their defaults, exactly as in the source. -/
def tierAllocate (provider : Nat → Nat → Nat) (tierIdx : Nat)
    (c : PoolSizeConstructor) (pools : List Pool) (memoryType : MemType) :
    LocalAllocation × List Pool :=
  let pools0 := if pools.length = 0 then AddNewPool provider c pools else pools
  match tryPools c.kPoolCount memoryType pools0 with
  | some (j, blockIdx, pools1) =>
      ({ m_platformMemory :=
           CPPAllocator.Offset ((pools1.getD j noPool).m_platformMemory)
             (mulW blockIdx c.kPoolSize),
         blockIdx := blockIdx,
         m_poolAllocatedFrom := some (tierIdx, j) },
       pools1)
  | none =>
      let pools2 := AddNewPool provider c pools0
      ({ LocalAllocation.mkDefault with
           blockIdx :=
             (Pool.Allocate c.kPoolCount (pools2.getD (pools2.length - 1) noPool)
                 memoryType).fst.getD (wsize - 1) },
       pools2.set (pools2.length - 1)
         (Pool.Allocate c.kPoolCount (pools2.getD (pools2.length - 1) noPool)
             memoryType).snd)

/-- PoolList::Allocate over the recursive template chain: tierIdx is
T_ARRAY_IDX, the table suffix drives the recursion and the state suffix holds
each tier's m_pools.  A fitting request is served by tierAllocate; an oversize
request is delegated unchanged to m_nextPool; the terminal specialization
(table exhausted) returns a default-constructed LocalAllocation and touches
no state. -/
def PoolList.Allocate (provider : Nat → Nat → Nat) :
    Nat → List PoolSizeConstructor → List (List Pool) → Nat → MemType →
    LocalAllocation × List (List Pool)
  | tierIdx, c :: table, pools :: tiers, memorySize, memoryType =>
      if memorySize ≤ c.kPoolSize then
        ((tierAllocate provider tierIdx c pools memoryType).fst,
         (tierAllocate provider tierIdx c pools memoryType).snd :: tiers)
      else
        ((PoolList.Allocate provider (tierIdx + 1) table tiers memorySize
             memoryType).fst,
         pools :: (PoolList.Allocate provider (tierIdx + 1) table tiers
             memorySize memoryType).snd)
  | _, _, tiers, _, _ => (LocalAllocation.mkDefault, tiers)

/-- MemoryAllocator::Allocate: delegates to m_firstPool, the head of the tier
chain built from kPoolSizes at T_ARRAY_IDX = 0. -/
def MemoryAllocator.Allocate (provider : Nat → Nat → Nat)
    (tiers : List (List Pool)) (memorySize : Nat) (memoryType : MemType) :
    LocalAllocation × List (List Pool) :=
  PoolList.Allocate provider 0 kPoolSizes tiers memorySize memoryType

/-- Iterated Pool::Allocate: n successive claims against one pool, collecting
the indices of the successful ones in order. -/
def claimSeq (kBlockCount : Nat) (memoryType : MemType) :
    Nat → Pool → List Nat × Pool
  | 0, p => ([], p)
  | n + 1, p =>
      match Pool.Allocate kBlockCount p memoryType with
      | (some idx, p') =>
          (idx :: (claimSeq kBlockCount memoryType n p').fst,
           (claimSeq kBlockCount memoryType n p').snd)
      | (none, p') => claimSeq kBlockCount memoryType n p'

/-- Iterated Pool::Deallocate: release the listed block indices in order. -/
def releaseSeq (L : List Nat) (p : Pool) : Pool :=
  L.foldl Pool.Deallocate p

/-- The live handles charged against the pool at (tier i, pool j). -/
def liveAt (i j : Nat) (live : List (Nat × Nat × Nat)) :
    List (Nat × Nat × Nat) :=
  live.filter (fun e => decide (e.1 = i ∧ e.2.1 = j))

/-- Allocator states reachable from the freshly constructed MemoryAllocator
(one empty pool list per class-table tier) by the three pool-level operations
the source performs: AddNewPool on a tier (with an arbitrary address returned
by the platform allocator), a successful Pool::Allocate claim - either tracked
by a live handle (the first-fit loop wires the handle to the claiming pool) or
leaked (the pool-growth path claims a block whose handle never carries the
pool, so the claim can never be released) - and the release performed by the
destructor of one live handle, which calls Pool::Deallocate on exactly its
origin pool.  live records the (tier, pool, blockIdx) of every outstanding
releasable handle. -/
inductive Reach : List (List Pool) → List (Nat × Nat × Nat) → Prop where
  | init : Reach (List.replicate kPoolSizes.length []) []
  | addPool {tiers : List (List Pool)} {live : List (Nat × Nat × Nat)}
      (i mem : Nat) (h : Reach tiers live) :
      Reach (tiers.set i ((tiers.getD i [])
        ++ [{ Pool.new (capOf i) with m_platformMemory := mem }])) live
  | claimStep {tiers : List (List Pool)} {live : List (Nat × Nat × Nat)}
      (i j : Nat) (t : MemType) (idx : Nat) (p' : Pool)
      (hj : j < (tiers.getD i []).length)
      (hsucc : Pool.Allocate (capOf i) (poolAt tiers i j) t = (some idx, p'))
      (h : Reach tiers live) :
      Reach (setPool tiers i j p') ((i, j, idx) :: live)
  | claimLeak {tiers : List (List Pool)} {live : List (Nat × Nat × Nat)}
      (i j : Nat) (t : MemType) (idx : Nat) (p' : Pool)
      (hj : j < (tiers.getD i []).length)
      (hsucc : Pool.Allocate (capOf i) (poolAt tiers i j) t = (some idx, p'))
      (h : Reach tiers live) :
      Reach (setPool tiers i j p') live
  | releaseStep {tiers : List (List Pool)}
      {l1 l2 : List (Nat × Nat × Nat)} (i j idx : Nat)
      (h : Reach tiers (l1 ++ (i, j, idx) :: l2)) :
      Reach (setPool tiers i j (Pool.Deallocate (poolAt tiers i j) idx))
        (l1 ++ l2)

/-- The inductive invariant carried over Reach: per-pool free-list
conservation, free lists without duplicates and disjoint from the live
handles, no duplicated live handle, active counts dominating the live handle
counts, and live handles referencing existing pools. -/
structure AllocInv (tiers : List (List Pool))
    (live : List (Nat × Nat × Nat)) : Prop where
  len_eq : tiers.length = kPoolSizes.length
  conserve : ∀ i j, j < (tiers.getD i []).length →
    (poolAt tiers i j).m_activeAllocationCount
      + (poolAt tiers i j).m_allocationList.length = capOf i
  freeNodup : ∀ i j, j < (tiers.getD i []).length →
    (poolAt tiers i j).m_allocationList.Nodup
  freeDisj : ∀ e ∈ live, e.2.2 ∉ (poolAt tiers e.1 e.2.1).m_allocationList
  liveNodup : live.Nodup
  liveCount : ∀ i j, j < (tiers.getD i []).length →
    (liveAt i j live).length ≤ (poolAt tiers i j).m_activeAllocationCount
  liveRange : ∀ e ∈ live, e.2.1 < (tiers.getD e.1 []).length

/-- Sample pool with two free blocks (the shape of Pool::Pool() for the
two-block classes of the table). -/
def samplePoolFree : Pool :=
  { m_typeList := [MemType.Array, MemType.Array], m_allocationList := [0, 1],
    m_platformMemory := 0, m_activeAllocationCount := 0 }

/-- Sample fully claimed two-block pool. -/
def samplePoolFull : Pool :=
  { m_typeList := [MemType.Other, MemType.Other], m_allocationList := [],
    m_platformMemory := 4096, m_activeAllocationCount := 2 }

/-- The static class table is strictly ascending in block size, so the first
tier whose block size fits a request is also the smallest fitting tier. -/
lemma kPoolSizes_ascending :
    ∀ i < kArrayTotalSize - 1, blockSizeOf i < blockSizeOf (i + 1) := by decide

/-- Reducing incW when the increment cannot wrap. -/
lemma incW_eq {n : Nat} (h : n + 1 < wsize) : incW n = n + 1 :=
  Nat.mod_eq_of_lt h

/-- Reducing decW when the decrement cannot wrap. -/
lemma decW_eq {n : Nat} (h0 : 0 < n) (h1 : n < wsize) : decW n = n - 1 := by
  have hw : 0 < wsize := by decide
  have he : n + (wsize - 1) = (n - 1) + wsize := by omega
  unfold decW
  rw [he, Nat.add_mod_right]
  exact Nat.mod_eq_of_lt (by omega)

/-- List.getD past the end yields the default. -/
lemma getD_of_le {α : Type _} (l : List α) :
    ∀ (i : Nat) (d : α), l.length ≤ i → l.getD i d = d := by
  induction l with
  | nil => intro i d _; cases i <;> rfl
  | cons a l ih =>
      intro i d h
      cases i with
      | zero => simp at h
      | succ n =>
          rw [List.getD_cons_succ]
          exact ih n d (by simp at h; omega)

/-- List.set past the end is the identity. -/
lemma set_of_le {α : Type _} (l : List α) :
    ∀ (i : Nat) (x : α), l.length ≤ i → l.set i x = l := by
  induction l with
  | nil => intro i x _; rfl
  | cons a l ih =>
      intro i x h
      cases i with
      | zero => simp at h
      | succ n => simp [List.set, ih n x (by simp at h; omega)]

/-- List.getD at the set position. -/
lemma getD_set_self {α : Type _} (l : List α) :
    ∀ (i : Nat) (x d : α), i < l.length → (l.set i x).getD i d = x := by
  induction l with
  | nil => intro i x d h; simp at h
  | cons a l ih =>
      intro i x d h
      cases i with
      | zero => rfl
      | succ n =>
          rw [List.set]
          rw [List.getD_cons_succ]
          exact ih n x d (by simp at h; omega)

/-- List.getD away from the set position. -/
lemma getD_set_ne {α : Type _} (l : List α) :
    ∀ (i k : Nat) (x d : α), k ≠ i → (l.set i x).getD k d = l.getD k d := by
  induction l with
  | nil => intro i k x d _; rfl
  | cons a l ih =>
      intro i k x d h
      cases i with
      | zero =>
          cases k with
          | zero => exact absurd rfl h
          | succ m => rfl
      | succ n =>
          cases k with
          | zero => rfl
          | succ m =>
              rw [List.set]
              rw [List.getD_cons_succ, List.getD_cons_succ]
              exact ih n m x d (by omega)

/-- List.getD into the prefix of a one-element append. -/
lemma getD_append_lt {α : Type _} (l : List α) :
    ∀ (j : Nat) (x d : α), j < l.length → (l ++ [x]).getD j d = l.getD j d := by
  induction l with
  | nil => intro j x d h; simp at h
  | cons a l ih =>
      intro j x d h
      cases j with
      | zero => rfl
      | succ n =>
          rw [List.cons_append, List.getD_cons_succ, List.getD_cons_succ]
          exact ih n x d (by simp at h; omega)

/-- List.getD at the appended element. -/
lemma getD_append_len {α : Type _} (l : List α) :
    ∀ (x d : α), (l ++ [x]).getD l.length d = x := by
  induction l with
  | nil => intro x d; rfl
  | cons a l ih =>
      intro x d
      rw [List.cons_append, List.length_cons, List.getD_cons_succ]
      exact ih x d

/-- List.getD of a replicated list is the replicated element. -/
lemma getD_replicate {α : Type _} (a : α) :
    ∀ (n i : Nat), (List.replicate n a).getD i a = a := by
  intro n
  induction n with
  | zero => intro i; cases i <;> rfl
  | succ m ih =>
      intro i
      cases i with
      | zero => rfl
      | succ k => rw [List.replicate, List.getD_cons_succ]; exact ih k

/-- A tier index holding a nonempty pool list is within the state. -/
lemma lt_length_of_getD_pos {tiers : List (List Pool)} {i : Nat}
    (h : 0 < (tiers.getD i []).length) : i < tiers.length := by
  by_contra hc
  push_neg at hc
  rw [getD_of_le tiers i [] hc] at h
  simp at h

/-- poolAt after setPool at the same coordinates. -/
lemma poolAt_setPool_self (tiers : List (List Pool)) (i j : Nat) (p : Pool)
    (hj : j < (tiers.getD i []).length) :
    poolAt (setPool tiers i j p) i j = p := by
  have hi : i < tiers.length := lt_length_of_getD_pos (by omega)
  unfold poolAt setPool
  rw [getD_set_self tiers i _ [] hi, getD_set_self _ j p noPool hj]

/-- poolAt after setPool at different coordinates. -/
lemma poolAt_setPool_ne (tiers : List (List Pool)) (i j a b : Nat) (p : Pool)
    (h : ¬(a = i ∧ b = j)) :
    poolAt (setPool tiers i j p) a b = poolAt tiers a b := by
  unfold poolAt setPool
  by_cases hai : a = i
  · subst hai
    have hbj : b ≠ j := fun hb => h ⟨rfl, hb⟩
    by_cases hi : a < tiers.length
    · rw [getD_set_self tiers a _ [] hi, getD_set_ne _ j b p noPool hbj]
    · rw [set_of_le tiers a _ (by omega)]
  · rw [getD_set_ne tiers i a _ [] hai]

/-- setPool preserves the length of every tier's pool list. -/
lemma getD_setPool_length (tiers : List (List Pool)) (i j : Nat) (p : Pool)
    (a : Nat) :
    ((setPool tiers i j p).getD a []).length = (tiers.getD a []).length := by
  unfold setPool
  by_cases hai : a = i
  · subst hai
    by_cases hi : a < tiers.length
    · rw [getD_set_self tiers a _ [] hi, List.length_set]
    · rw [set_of_le tiers a _ (by omega)]
  · rw [getD_set_ne tiers i a _ [] hai]

/-- setPool preserves the number of tiers. -/
lemma length_setPool (tiers : List (List Pool)) (i j : Nat) (p : Pool) :
    (setPool tiers i j p).length = tiers.length := by
  simp [setPool]

/-- Inversion of a successful Pool::Allocate. -/
lemma Pool.allocate_some {cap : Nat} {p : Pool} {t : MemType} {idx : Nat}
    {p' : Pool} (h : Pool.Allocate cap p t = (some idx, p')) :
    p.m_activeAllocationCount ≠ cap ∧
      ∃ rest, p.m_allocationList = idx :: rest ∧
        p' = { p with
                 m_typeList := p.m_typeList.set idx t,
                 m_allocationList := rest,
                 m_activeAllocationCount := incW p.m_activeAllocationCount } := by
  unfold Pool.Allocate at h
  by_cases hact : p.m_activeAllocationCount = cap
  · rw [if_pos hact] at h
    simp at h
  · rw [if_neg hact] at h
    cases hl : p.m_allocationList with
    | nil => rw [hl] at h; simp at h
    | cons front rest =>
        rw [hl] at h
        simp only [Prod.mk.injEq, Option.some.injEq] at h
        obtain ⟨h1, h2⟩ := h
        subst h1
        exact ⟨hact, rest, rfl, h2.symm⟩

/-- Claim C4: Pool::Allocate (TryClaim) returns none exactly when the active
count equals the capacity or the free list is empty; a failed claim leaves the
pool completely unchanged; a successful claim pops the front of the free list,
records the tag at that index, increments the active count and returns the
front index. -/
theorem claim4 (cap : Nat) (t : MemType) (r q p : Pool) (front : Nat)
    (rest : List Nat)
    (hq : (Pool.Allocate cap q t).fst = none)
    (hact : p.m_activeAllocationCount ≠ cap)
    (hlist : p.m_allocationList = front :: rest) :
    ((Pool.Allocate cap r t).fst = none
        ↔ (r.m_activeAllocationCount = cap ∨ r.m_allocationList = []))
    ∧ (Pool.Allocate cap q t).snd = q
    ∧ Pool.Allocate cap p t
        = (some front,
           { p with
               m_typeList := p.m_typeList.set front t,
               m_allocationList := rest,
               m_activeAllocationCount := incW p.m_activeAllocationCount }) := by
  refine ⟨?_, ?_, ?_⟩
  · unfold Pool.Allocate
    by_cases h1 : r.m_activeAllocationCount = cap
    · simp [h1]
    · cases h2 : r.m_allocationList with
      | nil => simp [h1, h2]
      | cons x l => simp [h1, h2]
  · unfold Pool.Allocate at hq ⊢
    by_cases h1 : q.m_activeAllocationCount = cap
    · rw [if_pos h1]
    · rw [if_neg h1] at hq ⊢
      cases h2 : q.m_allocationList with
      | nil => rfl
      | cons x l =>
          rw [h2] at hq
          simp at hq
  · unfold Pool.Allocate
    rw [if_neg hact, hlist]

/-- Witness for claim C4 at a concrete two-block pool: samplePoolFull fails
with no side effect, samplePoolFree succeeds on block 0. -/
theorem claim4_witness :
    ((Pool.Allocate 2 samplePoolFree MemType.Other).fst = none
        ↔ (samplePoolFree.m_activeAllocationCount = 2
            ∨ samplePoolFree.m_allocationList = []))
    ∧ (Pool.Allocate 2 samplePoolFull MemType.Other).snd = samplePoolFull
    ∧ Pool.Allocate 2 samplePoolFree MemType.Other
        = (some 0,
           { samplePoolFree with
               m_typeList := samplePoolFree.m_typeList.set 0 MemType.Other,
               m_allocationList := [1],
               m_activeAllocationCount :=
                 incW samplePoolFree.m_activeAllocationCount }) :=
  claim4 2 MemType.Other samplePoolFree samplePoolFull samplePoolFree 0 [1]
    (by decide) (by decide) rfl

/-- Destructor behaviour for the handles that do carry an origin pool (the
ones wired by the first-fit loop path): exactly one Pool::Deallocate call, on
exactly that origin pool with exactly the handle's block index; that call
appends the block index to the origin pool's free list, and no other pool of
the allocator state changes.  The pool-growth path returns handles without an
origin pool, which this lemma does not cover: see claim3_eval. -/
lemma destroy_with_origin (tiers : List (List Pool)) (h : LocalAllocation)
    (ti pi a b : Nat)
    (horigin : h.m_poolAllocatedFrom = some (ti, pi))
    (hne : ¬(a = ti ∧ b = pi)) :
    (LocalAllocation.destroy h tiers).snd = [(ti, pi, h.blockIdx)]
    ∧ (LocalAllocation.destroy h tiers).fst
        = setPool tiers ti pi
            (Pool.Deallocate (poolAt tiers ti pi) h.blockIdx)
    ∧ (Pool.Deallocate (poolAt tiers ti pi) h.blockIdx).m_allocationList
        = (poolAt tiers ti pi).m_allocationList ++ [h.blockIdx]
    ∧ poolAt (LocalAllocation.destroy h tiers).fst a b = poolAt tiers a b := by
  have hd : LocalAllocation.destroy h tiers
      = (setPool tiers ti pi
           (Pool.Deallocate (poolAt tiers ti pi) h.blockIdx),
         [(ti, pi, h.blockIdx)]) := by
    unfold LocalAllocation.destroy
    rw [horigin]
  refine ⟨by rw [hd], by rw [hd], rfl, ?_⟩
  rw [hd]
  exact poolAt_setPool_ne tiers ti pi a b _ hne

/-- Claim C3 fails on the code (code bug): the pool-growth path is a
successful pooled allocation - after Allocate(1024*1024*60, Other) against
tier 23 holding one fully claimed pool, the new pool's state shows block 0
claimed (active count 1, free list [1]) - yet the returned handle carries no
origin pool, so the end of its life triggers zero Pool::Deallocate calls and
changes no pool's state: the claimed block is never returned to the pool it
was claimed from, where the claim requires exactly one
originPool.Release(blockIndex). -/
theorem claim3_eval :
    LocalAllocation.destroy
        (MemoryAllocator.Allocate (fun _ _ => 4096)
            ((List.replicate 27 ([] : List Pool)).set 23 [samplePoolFull])
            (1024 * 1024 * 60) MemType.Other).fst
        (MemoryAllocator.Allocate (fun _ _ => 4096)
            ((List.replicate 27 ([] : List Pool)).set 23 [samplePoolFull])
            (1024 * 1024 * 60) MemType.Other).snd
      = ((MemoryAllocator.Allocate (fun _ _ => 4096)
            ((List.replicate 27 ([] : List Pool)).set 23 [samplePoolFull])
            (1024 * 1024 * 60) MemType.Other).snd, [])
    ∧ (poolAt (MemoryAllocator.Allocate (fun _ _ => 4096)
            ((List.replicate 27 ([] : List Pool)).set 23 [samplePoolFull])
            (1024 * 1024 * 60) MemType.Other).snd 23 1).m_activeAllocationCount
        = 1
    ∧ (poolAt (MemoryAllocator.Allocate (fun _ _ => 4096)
            ((List.replicate 27 ([] : List Pool)).set 23 [samplePoolFull])
            (1024 * 1024 * 60) MemType.Other).snd 23 1).m_allocationList
        = [1] := by decide

/-- Claim C10: destroying a handle whose origin pool reference is null (the
handles produced by the terminal oversize path and by the pool-growth path,
which sets only the block index) is a safe no-op: it performs no
Pool::Deallocate call - and the destructor never calls the platform
allocator's Free at all - and leaves every pool's state unchanged. -/
theorem claim10 (h : LocalAllocation) (tiers : List (List Pool))
    (hnone : h.m_poolAllocatedFrom = none) :
    LocalAllocation.destroy h tiers = (tiers, []) := by
  unfold LocalAllocation.destroy
  rw [hnone]

/-- Witness for claim C10: destroying a default-constructed handle over a
concrete state changes nothing. -/
theorem claim10_witness :
    LocalAllocation.destroy LocalAllocation.mkDefault [[samplePoolFull]]
      = ([[samplePoolFull]], []) :=
  claim10 LocalAllocation.mkDefault [[samplePoolFull]] rfl

/-- Shape of an iterated release that cannot wrap the active count: the
released indices are appended in order and the active count drops by the
number of releases. -/
lemma releaseSeq_shape :
    ∀ (L : List Nat) (p : Pool),
      L.length ≤ p.m_activeAllocationCount →
      p.m_activeAllocationCount < wsize →
      releaseSeq L p
        = { p with
              m_allocationList := p.m_allocationList ++ L,
              m_activeAllocationCount :=
                p.m_activeAllocationCount - L.length } := by
  intro L
  induction L with
  | nil =>
      intro p _ _
      simp [releaseSeq]
  | cons x xs ih =>
      intro p h1 h2
      have hlen : xs.length + 1 ≤ p.m_activeAllocationCount := by
        simpa [List.length_cons] using h1
      have hd : Pool.Deallocate p x
          = { p with
                m_allocationList := p.m_allocationList ++ [x],
                m_activeAllocationCount := p.m_activeAllocationCount - 1 } := by
        unfold Pool.Deallocate
        rw [decW_eq (by omega) h2]
      have hstep : releaseSeq (x :: xs) p = releaseSeq xs (Pool.Deallocate p x) :=
        rfl
      rw [hstep, hd, ih _ (by simp; omega) (by simp; omega)]
      simp [List.append_assoc, Nat.sub_sub]
      omega

/-- Claiming as many times as there are free blocks, in a pool satisfying the
free-list conservation bound, returns exactly the free list in order. -/
lemma claimSeq_all (cap : Nat) (t : MemType) :
    ∀ (F : List Nat) (p : Pool),
      p.m_allocationList = F →
      p.m_activeAllocationCount + F.length = cap →
      cap < wsize →
      (claimSeq cap t F.length p).fst = F := by
  intro F
  induction F with
  | nil => intro p _ _ _; rfl
  | cons f fs ih =>
      intro p hlist hcons hcap
      have hact : p.m_activeAllocationCount ≠ cap := by
        simp [List.length_cons] at hcons
        omega
      have halloc : Pool.Allocate cap p t
          = (some f,
             { p with
                 m_typeList := p.m_typeList.set f t,
                 m_allocationList := fs,
                 m_activeAllocationCount := p.m_activeAllocationCount + 1 }) := by
        unfold Pool.Allocate
        rw [if_neg hact, hlist, incW_eq (by simp [List.length_cons] at hcons; omega)]
      have hrec := ih
        { p with
            m_typeList := p.m_typeList.set f t,
            m_allocationList := fs,
            m_activeAllocationCount := p.m_activeAllocationCount + 1 }
        rfl (by simp [List.length_cons] at hcons ⊢; omega) hcap
      rw [List.length_cons]
      show (match Pool.Allocate cap p t with
            | (some idx, p') =>
                (idx :: (claimSeq cap t fs.length p').fst,
                 (claimSeq cap t fs.length p').snd)
            | (none, p') => claimSeq cap t fs.length p').fst = f :: fs
      rw [halloc]
      simpa using hrec

/-- Counterexample to claim C6 as stated: on a fresh two-block pool (the shape
of the 60 MB class, capacity capOf 23 = 2) claim N = 1 block - obtaining the
index sequence [0] - release it in that order, and claim N = 1 more: the pool
returns [1], not [0], because the remaining free-list entry 1 stands in front
of the re-appended 0. -/
theorem claim6_cex :
    (claimSeq (capOf 23) MemType.Other 1
        (releaseSeq (claimSeq (capOf 23) MemType.Other 1 (Pool.new 2)).fst
          (claimSeq (capOf 23) MemType.Other 1 (Pool.new 2)).snd)).fst
      ≠ (claimSeq (capOf 23) MemType.Other 1 (Pool.new 2)).fst := by decide

/-- Claim C6 (amended): the FIFO reuse round-trip holds when the N claims
exhaust the pool's free list (for a fresh pool, N = capacity): for a pool
whose free list is empty and whose active count is the capacity, releasing
the block indices i1, ..., iN in that order and then claiming N more returns
exactly i1, ..., iN in that order - freed indices are appended to the back of
the free list and claims take from the front. -/
theorem claim6 (cap : Nat) (p : Pool) (t : MemType) (L : List Nat)
    (hfree : p.m_allocationList = [])
    (hact : p.m_activeAllocationCount = cap)
    (hcap : cap < wsize)
    (hlen : L.length ≤ cap) :
    (claimSeq cap t L.length (releaseSeq L p)).fst = L := by
  rw [releaseSeq_shape L p (by rw [hact]; exact hlen) (by rw [hact]; exact hcap)]
  apply claimSeq_all
  · simp [hfree]
  · simp [hact]
    omega
  · exact hcap

/-- Witness for claim C6 (amended): a fully claimed two-block pool, releasing
blocks in the order 1, 0, hands back 1 then 0. -/
theorem claim6_witness :
    (claimSeq 2 MemType.Other (List.length [1, 0])
        (releaseSeq [1, 0] samplePoolFull)).fst = [1, 0] :=
  claim6 2 samplePoolFull MemType.Other [1, 0] rfl rfl (by decide) (by decide)

/-- Claim C2 fails on the code (code bug): with tier 23 (block size 60 MB,
capacity 2) holding one fully claimed pool, a fitting request takes the
pool-growth path: exactly one new pool is created and block 0 is claimed from
it (visible in the state, where the new pool's free list has shrunk to [1] and
its active count is 1), but the returned handle carries only the claimed block
index - its origin pool is null and its platform memory is kMemoryDefault
instead of the new pool's base address 4096 offset by 0 * blockSize.  Only the
zero-pools path wires the handle to the new pool as the claim demands. -/
theorem claim2_eval :
    MemoryAllocator.Allocate (fun _ _ => 4096)
        ((List.replicate 27 ([] : List Pool)).set 23 [samplePoolFull])
        (1024 * 1024 * 60) MemType.Other
      = ({ m_platformMemory := 0, blockIdx := 0, m_poolAllocatedFrom := none },
         (List.replicate 27 ([] : List Pool)).set 23
           [samplePoolFull,
            { m_typeList := [MemType.Other, MemType.Array],
              m_allocationList := [1], m_platformMemory := 4096,
              m_activeAllocationCount := 1 }]) := by decide

/-- Claim C8 fails on the code (code bug): a request larger than every
configured class (the largest is 72 MB) reaches the terminal PoolList
specialization, which - despite its own comment declaring the oversize
request an error - returns a default-constructed LocalAllocation: a handle of
the same type as every successful allocation, with null platform memory, null
origin pool and blockIdx = ~0, rather than any distinct recognizable failure
value. -/
theorem claim8_eval :
    MemoryAllocator.Allocate (fun _ _ => 4096)
        (List.replicate 27 ([] : List Pool)) (1024 * 1024 * 72 + 1)
        MemType.Other
      = (LocalAllocation.mkDefault, List.replicate 27 ([] : List Pool))
    ∧ LocalAllocation.mkDefault.m_platformMemory = kMemoryDefault
    ∧ LocalAllocation.mkDefault.m_poolAllocatedFrom = none := by decide

/-- Claim C9 fails on the code (code bug): when the platform allocator fails
to reserve memory (returns 0, i.e. nullptr, as malloc does on exhaustion),
AddNewPool stores the null base address without any check: the new pool is
fully committed (free list [1], one block claimed), and Allocate returns an
apparently successful handle whose platform address is the null-based offset
0 - the provider failure is swallowed instead of propagating, and the partial
state remains. -/
theorem claim9_eval :
    MemoryAllocator.Allocate (fun _ _ => 0)
        (List.replicate 27 ([] : List Pool)) (1024 * 1024 * 60) MemType.Other
      = ({ m_platformMemory := 0, blockIdx := 0,
           m_poolAllocatedFrom := some (23, 0) },
         (List.replicate 27 ([] : List Pool)).set 23
           [{ m_typeList := [MemType.Other, MemType.Array],
              m_allocationList := [1], m_platformMemory := 0,
              m_activeAllocationCount := 1 }]) := by decide

/-- Routing through the tier chain: if tier i is the first tier of the table
suffix whose block size fits the request, PoolList::Allocate reaches tier i
with the request unchanged, serves it there, and only tier i's pool list
changes. -/
lemma chain_route (provider : Nat → Nat → Nat) (t : MemType) :
    ∀ (i : Nat) (table : List PoolSizeConstructor)
      (tiers : List (List Pool)) (k s : Nat),
      tiers.length = table.length →
      i < table.length →
      s ≤ (table.getD i noClass).kPoolSize →
      (∀ j, j < i → (table.getD j noClass).kPoolSize < s) →
      PoolList.Allocate provider k table tiers s t
        = ((tierAllocate provider (k + i) (table.getD i noClass)
              (tiers.getD i []) t).fst,
           tiers.set i (tierAllocate provider (k + i) (table.getD i noClass)
              (tiers.getD i []) t).snd) := by
  intro i
  induction i with
  | zero =>
      intro table tiers k s hlen hi hfit _
      cases table with
      | nil => simp at hi
      | cons c tb =>
          cases tiers with
          | nil => simp at hlen
          | cons q ts =>
              rw [List.getD_cons_zero] at hfit ⊢
              simp only [PoolList.Allocate, if_pos hfit]
              rfl
  | succ n ih =>
      intro table tiers k s hlen hi hfit hleast
      cases table with
      | nil => simp at hi
      | cons c tb =>
          cases tiers with
          | nil => simp at hlen
          | cons q ts =>
              have hc : c.kPoolSize < s := by
                have := hleast 0 (by omega)
                rwa [List.getD_cons_zero] at this
              simp only [PoolList.Allocate, if_neg (by omega : ¬ s ≤ c.kPoolSize)]
              have hrec := ih tb ts (k + 1) s
                (by simp at hlen; omega)
                (by simp at hi; omega)
                (by rwa [List.getD_cons_succ] at hfit)
                (fun j hj => by
                  have := hleast (j + 1) (by omega)
                  rwa [List.getD_cons_succ] at this)
              rw [hrec]
              simp only [List.getD_cons_succ, List.set]
              have hk : k + 1 + n = k + (n + 1) := by omega
              rw [hk]

/-- If every tier of the table suffix is too small, the request falls through
to the terminal specialization: a default-constructed handle is returned and
the state is untouched. -/
lemma chain_reject (provider : Nat → Nat → Nat) (t : MemType) :
    ∀ (table : List PoolSizeConstructor) (tiers : List (List Pool)) (k s : Nat),
      tiers.length = table.length →
      (∀ j, j < table.length → (table.getD j noClass).kPoolSize < s) →
      PoolList.Allocate provider k table tiers s t
        = (LocalAllocation.mkDefault, tiers) := by
  intro table
  induction table with
  | nil =>
      intro tiers k s hlen _
      cases tiers with
      | nil => rfl
      | cons q ts => simp at hlen
  | cons c tb ih =>
      intro tiers k s hlen hall
      cases tiers with
      | nil => simp at hlen
      | cons q ts =>
          have hc : c.kPoolSize < s := by
            have := hall 0 (by simp)
            rwa [List.getD_cons_zero] at this
          simp only [PoolList.Allocate, if_neg (by omega : ¬ s ≤ c.kPoolSize)]
          have hrec := ih ts (k + 1) s (by simp at hlen; omega)
            (fun j hj => by
              have := hall (j + 1) (by simp; omega)
              rwa [List.getD_cons_succ] at this)
          rw [hrec]

/-- The range-for loop of PoolList::Allocate is first-fit: when it succeeds at
pool position j, every earlier pool refused the claim and pool j granted
exactly the returned block index. -/
lemma tryPools_first_fit (cap : Nat) (t : MemType) :
    ∀ (pools : List Pool) (j bidx : Nat) (ps' : List Pool),
      tryPools cap t pools = some (j, bidx, ps') →
      (∀ k, k < j → (Pool.Allocate cap (pools.getD k noPool) t).fst = none)
      ∧ (Pool.Allocate cap (pools.getD j noPool) t).fst = some bidx := by
  intro pools
  induction pools with
  | nil => intro j bidx ps' h; simp [tryPools] at h
  | cons p ps ih =>
      intro j bidx ps' h
      rw [tryPools] at h
      rcases hall : Pool.Allocate cap p t with ⟨o, p2⟩
      rw [hall] at h
      cases o with
      | some idx =>
          simp only [Option.some.injEq, Prod.mk.injEq] at h
          obtain ⟨hj, hb, _⟩ := h
          subst hj
          subst hb
          refine ⟨fun k hk => by omega, ?_⟩
          rw [List.getD_cons_zero, hall]
      | none =>
          rcases hrec : tryPools cap t ps with _ | ⟨⟨j2, bidx2, ps2⟩⟩
          · rw [hrec] at h; simp at h
          · rw [hrec] at h
            simp only [Option.some.injEq, Prod.mk.injEq] at h
            obtain ⟨hj, hb, _⟩ := h
            subst hj
            subst hb
            have := ih j2 bidx2 ps2 hrec
            refine ⟨fun k hk => ?_, ?_⟩
            · cases k with
              | zero => rw [List.getD_cons_zero, hall]
              | succ m =>
                  rw [List.getD_cons_succ]
                  exact this.1 m (by omega)
            · rw [List.getD_cons_succ]
              exact this.2

/-- Claim C1: a request of size s is routed past every tier whose block size
is below s, unchanged, and is served by the smallest (first, and since
kPoolSizes is ascending, smallest-block-size) tier i with blockSizeOf i >= s:
the overall result is exactly tier i's allocation and only tier i's pool list
changes; if no tier fits, the terminal policy handles the request (default
handle, no state change); and within a tier the block is claimed from the
first pool in creation order whose claim succeeds (every earlier pool refuses,
pool j grants the returned index). -/
theorem claim1 (provider : Nat → Nat → Nat) (s : Nat) (t : MemType)
    (tiers : List (List Pool)) (i : Nat)
    (hlen : tiers.length = kPoolSizes.length)
    (hi : i < kPoolSizes.length)
    (hfit : s ≤ blockSizeOf i)
    (hleast : ∀ j, j < i → blockSizeOf j < s)
    (s2 : Nat) (hbig : ∀ j, j < kPoolSizes.length → blockSizeOf j < s2)
    (cap : Nat) (pools : List Pool) (j bidx : Nat) (ps' : List Pool)
    (htry : tryPools cap t pools = some (j, bidx, ps'))
    (k : Nat) (hk : k < j) :
    MemoryAllocator.Allocate provider tiers s t
      = ((tierAllocate provider i (kPoolSizes.getD i noClass)
            (tiers.getD i []) t).fst,
         tiers.set i (tierAllocate provider i (kPoolSizes.getD i noClass)
            (tiers.getD i []) t).snd)
    ∧ MemoryAllocator.Allocate provider tiers s2 t
        = (LocalAllocation.mkDefault, tiers)
    ∧ (Pool.Allocate cap (pools.getD k noPool) t).fst = none
    ∧ (Pool.Allocate cap (pools.getD j noPool) t).fst = some bidx := by
  refine ⟨?_, ?_, ?_, ?_⟩
  · have := chain_route provider t i kPoolSizes tiers 0 s hlen hi hfit hleast
    simpa [MemoryAllocator.Allocate] using this
  · exact chain_reject provider t kPoolSizes tiers 0 s2 hlen hbig
  · exact (tryPools_first_fit cap t pools j bidx ps' htry).1 k hk
  · exact (tryPools_first_fit cap t pools j bidx ps' htry).2

/-- Witness for claim C1: a 60 MB request on a fresh allocator is served by
tier 23, a 72 MB + 1 byte request falls to the terminal policy, and over the
pool list [samplePoolFull, samplePoolFree] the loop skips the full pool 0 and
claims block 0 from pool 1. -/
theorem claim1_witness :
    MemoryAllocator.Allocate (fun _ _ => 4096)
        (List.replicate 27 ([] : List Pool)) (1024 * 1024 * 60) MemType.Other
      = ((tierAllocate (fun _ _ => 4096) 23 (kPoolSizes.getD 23 noClass)
            ((List.replicate 27 ([] : List Pool)).getD 23 []) MemType.Other).fst,
         (List.replicate 27 ([] : List Pool)).set 23
           (tierAllocate (fun _ _ => 4096) 23 (kPoolSizes.getD 23 noClass)
            ((List.replicate 27 ([] : List Pool)).getD 23 []) MemType.Other).snd)
    ∧ MemoryAllocator.Allocate (fun _ _ => 4096)
        (List.replicate 27 ([] : List Pool)) (1024 * 1024 * 72 + 1) MemType.Other
        = (LocalAllocation.mkDefault, List.replicate 27 ([] : List Pool))
    ∧ (Pool.Allocate 2
          ([samplePoolFull, samplePoolFree].getD 0 noPool) MemType.Other).fst
        = none
    ∧ (Pool.Allocate 2
          ([samplePoolFull, samplePoolFree].getD 1 noPool) MemType.Other).fst
        = some 0 :=
  claim1 (fun _ _ => 4096) (1024 * 1024 * 60) MemType.Other
    (List.replicate 27 ([] : List Pool)) 23 (by decide) (by decide) (by decide)
    (by decide) (1024 * 1024 * 72 + 1) (by decide) 2
    [samplePoolFull, samplePoolFree] 1 0
    [samplePoolFull,
     { m_typeList := [MemType.Other, MemType.Array], m_allocationList := [1],
       m_platformMemory := 0, m_activeAllocationCount := 1 }]
    (by decide) 0 (by decide)

/-- Every capacity in the class table is at most 1024. -/
lemma capOf_le (i : Nat) : capOf i ≤ 1024 := by
  by_cases h : i < kPoolSizes.length
  · have hall : ∀ j < kPoolSizes.length, capOf j ≤ 1024 := by decide
    exact hall i h
  · unfold capOf
    rw [getD_of_le kPoolSizes i noClass (by omega)]
    decide

/-- Pool capacities never come close to wrapping size_t. -/
lemma capOf_lt_wsize (i : Nat) : capOf i < wsize :=
  lt_of_le_of_lt (capOf_le i) (by decide)

/-- liveAt over a cons with matching pool coordinates. -/
lemma liveAt_cons_self (i j idx : Nat) (live : List (Nat × Nat × Nat)) :
    liveAt i j ((i, j, idx) :: live) = (i, j, idx) :: liveAt i j live := by
  simp [liveAt]

/-- liveAt over a cons with different pool coordinates. -/
lemma liveAt_cons_ne (a b i j idx : Nat) (live : List (Nat × Nat × Nat))
    (h : ¬(i = a ∧ j = b)) :
    liveAt a b ((i, j, idx) :: live) = liveAt a b live := by
  simp [liveAt, h]

/-- Removing the released handle drops its pool's live count by one. -/
lemma liveAt_middle_self (i j idx : Nat) (l1 l2 : List (Nat × Nat × Nat)) :
    (liveAt i j (l1 ++ (i, j, idx) :: l2)).length
      = (liveAt i j (l1 ++ l2)).length + 1 := by
  simp [liveAt, List.filter_append]
  omega

/-- Removing the released handle leaves other pools' live counts unchanged. -/
lemma liveAt_middle_ne (a b i j idx : Nat) (l1 l2 : List (Nat × Nat × Nat))
    (h : ¬(i = a ∧ j = b)) :
    liveAt a b (l1 ++ (i, j, idx) :: l2) = liveAt a b (l1 ++ l2) := by
  simp [liveAt, List.filter_append, h]

/-- The invariant holds in the freshly constructed allocator. -/
lemma inv_init : AllocInv (List.replicate kPoolSizes.length []) [] := by
  refine ⟨by simp, ?_, ?_, ?_, by simp, ?_, ?_⟩
  · intro i j hj
    rw [getD_replicate ([] : List Pool) kPoolSizes.length i] at hj
    simp at hj
  · intro i j hj
    rw [getD_replicate ([] : List Pool) kPoolSizes.length i] at hj
    simp at hj
  · intro e he
    simp at he
  · intro i j _
    simp [liveAt]
  · intro e he
    simp at he

/-- AddNewPool preserves the invariant: the appended pool is fresh (active
count 0, free list 0..capacity-1) and no live handle can reference it. -/
lemma inv_addPool {tiers : List (List Pool)} {live : List (Nat × Nat × Nat)}
    (ih : AllocInv tiers live) (i : Nat) (q : Pool)
    (hqa : q.m_activeAllocationCount = 0)
    (hql : q.m_allocationList = List.range (capOf i)) :
    AllocInv (tiers.set i ((tiers.getD i []) ++ [q])) live := by
  by_cases hi : i < tiers.length
  · have hI : (tiers.set i (tiers.getD i [] ++ [q])).getD i []
        = tiers.getD i [] ++ [q] := getD_set_self tiers i _ [] hi
    have hA : ∀ a, a ≠ i →
        (tiers.set i (tiers.getD i [] ++ [q])).getD a [] = tiers.getD a [] :=
      fun a ha => getD_set_ne tiers i a _ [] ha
    refine ⟨?_, ?_, ?_, ?_, ih.liveNodup, ?_, ?_⟩
    · rw [List.length_set]
      exact ih.len_eq
    · intro a b hb
      unfold poolAt
      by_cases hai : a = i
      · rw [hai] at hb ⊢
        rw [hI] at hb ⊢
        rw [List.length_append, List.length_singleton] at hb
        rcases Nat.lt_or_ge b (tiers.getD i []).length with hbl | hbl
        · rw [getD_append_lt _ b q noPool hbl]
          exact ih.conserve i b hbl
        · have hbe : b = (tiers.getD i []).length := by omega
          rw [hbe, getD_append_len, hqa, hql]
          simp
      · rw [hA a hai] at hb ⊢
        exact ih.conserve a b hb
    · intro a b hb
      unfold poolAt
      by_cases hai : a = i
      · rw [hai] at hb ⊢
        rw [hI] at hb ⊢
        rw [List.length_append, List.length_singleton] at hb
        rcases Nat.lt_or_ge b (tiers.getD i []).length with hbl | hbl
        · rw [getD_append_lt _ b q noPool hbl]
          exact ih.freeNodup i b hbl
        · rw [(by omega : b = (tiers.getD i []).length), getD_append_len, hql]
          exact List.nodup_range (capOf i)
      · rw [hA a hai] at hb ⊢
        exact ih.freeNodup a b hb
    · intro e he
      have hr := ih.liveRange e he
      have hd := ih.freeDisj e he
      unfold poolAt at hd ⊢
      by_cases hai : e.1 = i
      · rw [hai] at hr hd ⊢
        rw [hI, getD_append_lt _ e.2.1 q noPool hr]
        exact hd
      · rw [hA e.1 hai]
        exact hd
    · intro a b hb
      unfold poolAt
      by_cases hai : a = i
      · rw [hai] at hb ⊢
        rw [hI] at hb ⊢
        rw [List.length_append, List.length_singleton] at hb
        rcases Nat.lt_or_ge b (tiers.getD i []).length with hbl | hbl
        · rw [getD_append_lt _ b q noPool hbl]
          exact ih.liveCount i b hbl
        · rw [(by omega : b = (tiers.getD i []).length), getD_append_len]
          have hz : liveAt i (tiers.getD i []).length live = [] := by
            unfold liveAt
            rw [List.filter_eq_nil_iff]
            intro e he
            simp only [decide_eq_true_eq]
            rintro ⟨h1, h2⟩
            have hr := ih.liveRange e he
            rw [h1] at hr
            omega
          rw [hz, hqa]
          simp
      · rw [hA a hai] at hb ⊢
        exact ih.liveCount a b hb
    · intro e he
      have hr := ih.liveRange e he
      by_cases hai : e.1 = i
      · rw [hai] at hr ⊢
        rw [hI, List.length_append, List.length_singleton]
        omega
      · rw [hA e.1 hai]
        exact hr
  · rw [set_of_le tiers i _ (by omega)]
    exact ih

/-- A successful claim tracked by a live handle preserves the invariant. -/
lemma inv_claimStep {tiers : List (List Pool)} {live : List (Nat × Nat × Nat)}
    (ih : AllocInv tiers live) (i j : Nat) (t : MemType) (idx : Nat) (p' : Pool)
    (hj : j < (tiers.getD i []).length)
    (hsucc : Pool.Allocate (capOf i) (poolAt tiers i j) t = (some idx, p')) :
    AllocInv (setPool tiers i j p') ((i, j, idx) :: live) := by
  obtain ⟨hact, rest, hlist, hp'⟩ := Pool.allocate_some hsucc
  have hcons := ih.conserve i j hj
  have hlen2 : (poolAt tiers i j).m_activeAllocationCount + (rest.length + 1)
      = capOf i := by
    rw [hlist] at hcons
    simpa using hcons
  have hincr : incW (poolAt tiers i j).m_activeAllocationCount
      = (poolAt tiers i j).m_activeAllocationCount + 1 :=
    incW_eq (by have := capOf_lt_wsize i; omega)
  have hnodup := ih.freeNodup i j hj
  rw [hlist] at hnodup
  have hninr : idx ∉ rest := (List.nodup_cons.mp hnodup).1
  have hrestn : rest.Nodup := (List.nodup_cons.mp hnodup).2
  have hP1 : poolAt (setPool tiers i j p') i j = p' :=
    poolAt_setPool_self tiers i j p' hj
  have hLen : ∀ a, ((setPool tiers i j p').getD a []).length
      = (tiers.getD a []).length := getD_setPool_length tiers i j p'
  have hp'a : p'.m_activeAllocationCount
      = (poolAt tiers i j).m_activeAllocationCount + 1 := by
    rw [hp']
    exact hincr
  have hp'l : p'.m_allocationList = rest := by rw [hp']
  refine ⟨?_, ?_, ?_, ?_, ?_, ?_, ?_⟩
  · rw [length_setPool]
    exact ih.len_eq
  · intro a b hb
    rw [hLen a] at hb
    by_cases hab : a = i ∧ b = j
    · obtain ⟨h1, h2⟩ := hab
      rw [h1, h2, hP1, hp'a, hp'l]
      omega
    · rw [poolAt_setPool_ne tiers i j a b p' hab]
      exact ih.conserve a b hb
  · intro a b hb
    rw [hLen a] at hb
    by_cases hab : a = i ∧ b = j
    · obtain ⟨h1, h2⟩ := hab
      rw [h1, h2, hP1, hp'l]
      exact hrestn
    · rw [poolAt_setPool_ne tiers i j a b p' hab]
      exact ih.freeNodup a b hb
  · intro e he
    rcases List.mem_cons.mp he with heq | hin
    · rw [heq]
      show idx ∉ (poolAt (setPool tiers i j p') i j).m_allocationList
      rw [hP1, hp'l]
      exact hninr
    · by_cases hab : e.1 = i ∧ e.2.1 = j
      · obtain ⟨h1, h2⟩ := hab
        have hd := ih.freeDisj e hin
        rw [h1, h2, hlist] at hd
        rw [h1, h2, hP1, hp'l]
        simp only [List.mem_cons, not_or] at hd
        exact hd.2
      · rw [poolAt_setPool_ne tiers i j e.1 e.2.1 p' hab]
        exact ih.freeDisj e hin
  · rw [List.nodup_cons]
    refine ⟨?_, ih.liveNodup⟩
    intro hmem
    have hd : idx ∉ (poolAt tiers i j).m_allocationList :=
      ih.freeDisj (i, j, idx) hmem
    rw [hlist] at hd
    exact hd (List.mem_cons_self idx rest)
  · intro a b hb
    rw [hLen a] at hb
    by_cases hab : a = i ∧ b = j
    · obtain ⟨h1, h2⟩ := hab
      rw [h1, h2, liveAt_cons_self, hP1, List.length_cons, hp'a]
      have := ih.liveCount i j hj
      omega
    · have hne : ¬(i = a ∧ j = b) := fun hx => hab ⟨hx.1.symm, hx.2.symm⟩
      rw [liveAt_cons_ne a b i j idx live hne]
      rw [poolAt_setPool_ne tiers i j a b p' hab]
      exact ih.liveCount a b hb
  · intro e he
    rw [hLen e.1]
    rcases List.mem_cons.mp he with heq | hin
    · rw [heq]
      exact hj
    · exact ih.liveRange e hin

/-- A successful claim whose handle is never tracked (the pool-growth path of
the source, where the returned handle carries no origin pool) also preserves
the invariant: the claimed block simply leaks. -/
lemma inv_claimLeak {tiers : List (List Pool)} {live : List (Nat × Nat × Nat)}
    (ih : AllocInv tiers live) (i j : Nat) (t : MemType) (idx : Nat) (p' : Pool)
    (hj : j < (tiers.getD i []).length)
    (hsucc : Pool.Allocate (capOf i) (poolAt tiers i j) t = (some idx, p')) :
    AllocInv (setPool tiers i j p') live := by
  obtain ⟨hact, rest, hlist, hp'⟩ := Pool.allocate_some hsucc
  have hcons := ih.conserve i j hj
  have hlen2 : (poolAt tiers i j).m_activeAllocationCount + (rest.length + 1)
      = capOf i := by
    rw [hlist] at hcons
    simpa using hcons
  have hincr : incW (poolAt tiers i j).m_activeAllocationCount
      = (poolAt tiers i j).m_activeAllocationCount + 1 :=
    incW_eq (by have := capOf_lt_wsize i; omega)
  have hnodup := ih.freeNodup i j hj
  rw [hlist] at hnodup
  have hrestn : rest.Nodup := (List.nodup_cons.mp hnodup).2
  have hP1 : poolAt (setPool tiers i j p') i j = p' :=
    poolAt_setPool_self tiers i j p' hj
  have hLen : ∀ a, ((setPool tiers i j p').getD a []).length
      = (tiers.getD a []).length := getD_setPool_length tiers i j p'
  have hp'a : p'.m_activeAllocationCount
      = (poolAt tiers i j).m_activeAllocationCount + 1 := by
    rw [hp']
    exact hincr
  have hp'l : p'.m_allocationList = rest := by rw [hp']
  refine ⟨?_, ?_, ?_, ?_, ih.liveNodup, ?_, ?_⟩
  · rw [length_setPool]
    exact ih.len_eq
  · intro a b hb
    rw [hLen a] at hb
    by_cases hab : a = i ∧ b = j
    · obtain ⟨h1, h2⟩ := hab
      rw [h1, h2, hP1, hp'a, hp'l]
      omega
    · rw [poolAt_setPool_ne tiers i j a b p' hab]
      exact ih.conserve a b hb
  · intro a b hb
    rw [hLen a] at hb
    by_cases hab : a = i ∧ b = j
    · obtain ⟨h1, h2⟩ := hab
      rw [h1, h2, hP1, hp'l]
      exact hrestn
    · rw [poolAt_setPool_ne tiers i j a b p' hab]
      exact ih.freeNodup a b hb
  · intro e he
    by_cases hab : e.1 = i ∧ e.2.1 = j
    · obtain ⟨h1, h2⟩ := hab
      have hd := ih.freeDisj e he
      rw [h1, h2, hlist] at hd
      rw [h1, h2, hP1, hp'l]
      simp only [List.mem_cons, not_or] at hd
      exact hd.2
    · rw [poolAt_setPool_ne tiers i j e.1 e.2.1 p' hab]
      exact ih.freeDisj e he
  · intro a b hb
    rw [hLen a] at hb
    by_cases hab : a = i ∧ b = j
    · obtain ⟨h1, h2⟩ := hab
      rw [h1, h2, hP1, hp'a]
      have := ih.liveCount i j hj
      omega
    · rw [poolAt_setPool_ne tiers i j a b p' hab]
      exact ih.liveCount a b hb
  · intro e he
    rw [hLen e.1]
    exact ih.liveRange e he

/-- Releasing one live handle (handle destruction) preserves the invariant. -/
lemma inv_release {tiers : List (List Pool)} {l1 l2 : List (Nat × Nat × Nat)}
    (i j idx : Nat)
    (ih : AllocInv tiers (l1 ++ (i, j, idx) :: l2)) :
    AllocInv (setPool tiers i j (Pool.Deallocate (poolAt tiers i j) idx))
      (l1 ++ l2) := by
  have hmem : ((i, j, idx) : Nat × Nat × Nat) ∈ l1 ++ (i, j, idx) :: l2 := by
    simp
  have hj : j < (tiers.getD i []).length := ih.liveRange (i, j, idx) hmem
  have hcons := ih.conserve i j hj
  have hnotin : idx ∉ (poolAt tiers i j).m_allocationList :=
    ih.freeDisj (i, j, idx) hmem
  have hfreeN := ih.freeNodup i j hj
  have hperm : List.Perm (l1 ++ (i, j, idx) :: l2)
      ((i, j, idx) :: (l1 ++ l2)) := List.perm_middle
  have hnodup2 : ((i, j, idx) :: (l1 ++ l2)).Nodup :=
    (hperm.nodup_iff).mp ih.liveNodup
  have he0notin : ((i, j, idx) : Nat × Nat × Nat) ∉ l1 ++ l2 :=
    (List.nodup_cons.mp hnodup2).1
  have hrestn : (l1 ++ l2).Nodup := (List.nodup_cons.mp hnodup2).2
  have hcnt1 : 0 < (liveAt i j (l1 ++ (i, j, idx) :: l2)).length := by
    rw [liveAt_middle_self]
    omega
  have hactpos : 0 < (poolAt tiers i j).m_activeAllocationCount :=
    lt_of_lt_of_le hcnt1 (ih.liveCount i j hj)
  have hactlt : (poolAt tiers i j).m_activeAllocationCount < wsize := by
    have := capOf_lt_wsize i
    omega
  have hdec : decW (poolAt tiers i j).m_activeAllocationCount
      = (poolAt tiers i j).m_activeAllocationCount - 1 := decW_eq hactpos hactlt
  have hp : Pool.Deallocate (poolAt tiers i j) idx
      = { poolAt tiers i j with
            m_allocationList := (poolAt tiers i j).m_allocationList ++ [idx],
            m_activeAllocationCount :=
              (poolAt tiers i j).m_activeAllocationCount - 1 } := by
    unfold Pool.Deallocate
    rw [hdec]
  have hP1 : poolAt (setPool tiers i j (Pool.Deallocate (poolAt tiers i j) idx))
      i j = Pool.Deallocate (poolAt tiers i j) idx :=
    poolAt_setPool_self tiers i j _ hj
  have hLen := getD_setPool_length tiers i j
    (Pool.Deallocate (poolAt tiers i j) idx)
  have hpa : (Pool.Deallocate (poolAt tiers i j) idx).m_activeAllocationCount
      = (poolAt tiers i j).m_activeAllocationCount - 1 := by rw [hp]
  have hpl : (Pool.Deallocate (poolAt tiers i j) idx).m_allocationList
      = (poolAt tiers i j).m_allocationList ++ [idx] := by rw [hp]
  refine ⟨?_, ?_, ?_, ?_, hrestn, ?_, ?_⟩
  · rw [length_setPool]
    exact ih.len_eq
  · intro a b hb
    rw [hLen a] at hb
    by_cases hab : a = i ∧ b = j
    · obtain ⟨h1, h2⟩ := hab
      rw [h1, h2, hP1, hpa, hpl, List.length_append, List.length_singleton]
      omega
    · rw [poolAt_setPool_ne tiers i j a b _ hab]
      exact ih.conserve a b hb
  · intro a b hb
    rw [hLen a] at hb
    by_cases hab : a = i ∧ b = j
    · obtain ⟨h1, h2⟩ := hab
      rw [h1, h2, hP1, hpl]
      refine List.Nodup.append hfreeN (List.nodup_singleton idx) ?_
      intro x hx hx2
      simp at hx2
      rw [hx2] at hx
      exact hnotin hx
    · rw [poolAt_setPool_ne tiers i j a b _ hab]
      exact ih.freeNodup a b hb
  · intro e he
    have hin0 : e ∈ l1 ++ (i, j, idx) :: l2 := by
      rcases List.mem_append.mp he with hx | hx
      · exact List.mem_append_left _ hx
      · exact List.mem_append_right _ (List.mem_cons_of_mem _ hx)
    by_cases hab : e.1 = i ∧ e.2.1 = j
    · obtain ⟨h1, h2⟩ := hab
      have hd : e.2.2 ∉ (poolAt tiers i j).m_allocationList := by
        have := ih.freeDisj e hin0
        rwa [h1, h2] at this
      have hne : e.2.2 ≠ idx := by
        intro heq
        have heq2 : e = (i, j, idx) := by
          rcases e with ⟨x, y, z⟩
          have hx : x = i := h1
          have hy : y = j := h2
          have hz : z = idx := heq
          rw [hx, hy, hz]
        rw [heq2] at he
        exact he0notin he
      rw [h1, h2, hP1, hpl]
      intro hmem2
      rcases List.mem_append.mp hmem2 with hx | hx
      · exact hd hx
      · simp at hx
        exact hne hx
    · rw [poolAt_setPool_ne tiers i j e.1 e.2.1 _ hab]
      exact ih.freeDisj e hin0
  · intro a b hb
    rw [hLen a] at hb
    by_cases hab : a = i ∧ b = j
    · obtain ⟨h1, h2⟩ := hab
      rw [h1, h2, hP1, hpa]
      have hc := ih.liveCount i j hj
      rw [liveAt_middle_self] at hc
      omega
    · have hne : ¬(i = a ∧ j = b) := fun hx => hab ⟨hx.1.symm, hx.2.symm⟩
      have hc := ih.liveCount a b hb
      rw [liveAt_middle_ne a b i j idx l1 l2 hne] at hc
      rw [poolAt_setPool_ne tiers i j a b _ hab]
      exact hc
  · intro e he
    rw [hLen e.1]
    have hin0 : e ∈ l1 ++ (i, j, idx) :: l2 := by
      rcases List.mem_append.mp he with hx | hx
      · exact List.mem_append_left _ hx
      · exact List.mem_append_right _ (List.mem_cons_of_mem _ hx)
    exact ih.liveRange e hin0

/-- Every reachable allocator state satisfies the invariant. -/
theorem reach_inv {tiers : List (List Pool)} {live : List (Nat × Nat × Nat)}
    (h : Reach tiers live) : AllocInv tiers live := by
  induction h with
  | init => exact inv_init
  | addPool i mem h ih => exact inv_addPool ih i _ rfl rfl
  | claimStep i j t idx p' hj hsucc h ih =>
      exact inv_claimStep ih i j t idx p' hj hsucc
  | claimLeak i j t idx p' hj hsucc h ih =>
      exact inv_claimLeak ih i j t idx p' hj hsucc
  | releaseStep i j idx h ih => exact inv_release i j idx ih

/-- Claim C5: in every allocator state reachable by pool creations, claims and
handle releases, every pool satisfies activeCount + |freeList| = capacity of
its class, and consequently activeCount equals the capacity exactly when the
free list is empty. -/
theorem claim5 (tiers : List (List Pool)) (live : List (Nat × Nat × Nat))
    (hreach : Reach tiers live) (i j : Nat)
    (hj : j < (tiers.getD i []).length) :
    (poolAt tiers i j).m_activeAllocationCount
        + (poolAt tiers i j).m_allocationList.length = capOf i
    ∧ ((poolAt tiers i j).m_activeAllocationCount = capOf i
        ↔ (poolAt tiers i j).m_allocationList = []) := by
  have hc := (reach_inv hreach).conserve i j hj
  refine ⟨hc, ?_, ?_⟩
  · intro h
    have hz : (poolAt tiers i j).m_allocationList.length = 0 := by omega
    exact List.length_eq_zero.mp hz
  · intro h
    rw [h] at hc
    simpa using hc

/-- Witness for claim C5: the reachable state obtained by creating one pool in
tier 23 and claiming one block from it satisfies conservation (1 + 1 = 2) and
the emptiness equivalence. -/
theorem claim5_witness :
    (poolAt ((List.replicate 27 ([] : List Pool)).set 23
        [{ m_typeList := [MemType.Other, MemType.Array],
           m_allocationList := [1], m_platformMemory := 4096,
           m_activeAllocationCount := 1 }]) 23 0).m_activeAllocationCount
      + (poolAt ((List.replicate 27 ([] : List Pool)).set 23
        [{ m_typeList := [MemType.Other, MemType.Array],
           m_allocationList := [1], m_platformMemory := 4096,
           m_activeAllocationCount := 1 }]) 23 0).m_allocationList.length
      = capOf 23
    ∧ ((poolAt ((List.replicate 27 ([] : List Pool)).set 23
        [{ m_typeList := [MemType.Other, MemType.Array],
           m_allocationList := [1], m_platformMemory := 4096,
           m_activeAllocationCount := 1 }]) 23 0).m_activeAllocationCount
          = capOf 23
        ↔ (poolAt ((List.replicate 27 ([] : List Pool)).set 23
        [{ m_typeList := [MemType.Other, MemType.Array],
           m_allocationList := [1], m_platformMemory := 4096,
           m_activeAllocationCount := 1 }]) 23 0).m_allocationList = []) :=
  claim5 _ _
    (Reach.claimStep 23 0 MemType.Other 0
      { m_typeList := [MemType.Other, MemType.Array], m_allocationList := [1],
        m_platformMemory := 4096, m_activeAllocationCount := 1 }
      (by decide) (by decide)
      (Reach.addPool 23 4096 Reach.init))
    23 0 (by decide)

/-- Claim C7: in every reachable allocator state, no two live handles refer to
the same (tier, pool, blockIndex) coordinates: the list of outstanding
handles has no duplicates, so each claimed block is owned by at most one
handle at a time. -/
theorem claim7 (tiers : List (List Pool)) (live : List (Nat × Nat × Nat))
    (hreach : Reach tiers live) : live.Nodup :=
  (reach_inv hreach).liveNodup

/-- Witness for claim C7: after creating a tier-23 pool and claiming both of
its blocks, the two live handles (23, 0, 1) and (23, 0, 0) are distinct. -/
theorem claim7_witness :
    ([(23, 0, 1), (23, 0, 0)] : List (Nat × Nat × Nat)).Nodup :=
  claim7 _ _
    (Reach.claimStep 23 0 MemType.Other 1
      { m_typeList := [MemType.Other, MemType.Other], m_allocationList := [],
        m_platformMemory := 4096, m_activeAllocationCount := 2 }
      (by decide) (by decide)
      (Reach.claimStep 23 0 MemType.Other 0
        { m_typeList := [MemType.Other, MemType.Array], m_allocationList := [1],
          m_platformMemory := 4096, m_activeAllocationCount := 1 }
        (by decide) (by decide)
        (Reach.addPool 23 4096 Reach.init)))
